import Mathlib

/-!
# Verification of the websocket trade replayer (server.py / client.py)

Shallow embedding of the paced replay engine. Time values (pandas
timestamps, event-loop clock readings, delays) are modelled as exact
integers: every claim under study is a statement about signs, orderings
and linear arithmetic of time values, which is independent of the unit
or representation chosen.
-/

namespace TradeReplayer

/-- One row of the trade dataframe: a timestamp (the `timestamp` column,
used for grouping/ordering) plus the rest of the row, kept opaque as the
string `json.dumps` would produce for it. -/
structure Record where
  timestamp : Int
  payload : String
deriving Repr, DecidableEq, Inhabited

/-- `json.dumps(record, default=str)` — serialization of one row
(server.py lines 25-28); the payload already is the serialized form. -/
def serialize (r : Record) : String := r.payload

/-- Ordering of rows by the `timestamp` column, as used by
`sort_values(by="timestamp")` (server.py line 56). -/
def tsLE (a b : Record) : Prop := a.timestamp ≤ b.timestamp

instance : DecidableRel tsLE := fun a b => inferInstanceAs (Decidable (a.timestamp ≤ b.timestamp))

instance : IsTotal Record tsLE := ⟨fun a b => Int.le_total a.timestamp b.timestamp⟩

instance : IsTrans Record tsLE := ⟨fun _ _ _ h h' => Int.le_trans h h'⟩

/-- `trades_df.sort_values(by="timestamp")` (server.py line 56): a
comparison sort by the timestamp column, modelled by insertion sort. -/
def sortTrades (l : List Record) : List Record := List.insertionSort tsLE l

/-- One step of grouping rows into runs of equal timestamps, consuming the
list from the right: a row joins the front group when it carries the same
timestamp, otherwise it opens a new group. -/
def addRec (r : Record) : List (List Record) → List (List Record)
  | [] => [[r]]
  | g :: gs =>
    match g with
    | [] => [r] :: gs
    | s :: _ => if r.timestamp = s.timestamp then (r :: g) :: gs else [r] :: g :: gs

/-- Split a timestamp-sorted row list into maximal runs of equal
timestamps. Applied after `sortTrades` this is exactly pandas
`groupby("timestamp")` (server.py lines 21-24): keys iterated in
ascending order, rows of each key kept in their list order. -/
def groupRuns (l : List Record) : List (List Record) := l.foldr addRec []

/-- The tuple the producer enqueues for each timestamp group
(server.py line 29): `(timestamp, messages, len(group))`. -/
structure TickGroup where
  timestamp : Int
  messages : List String
  count : Nat
deriving Repr, DecidableEq

/-- Build the producer's tuple from one run of equal-timestamp rows. -/
def toTickGroup (g : List Record) : TickGroup :=
  { timestamp := (g.headD default).timestamp
    messages := g.map serialize
    count := g.length }

/-- The record-level groups underlying the producer's output:
`groupby("timestamp")` of the dataframe, i.e. stable sort by timestamp
followed by grouping of equal-timestamp runs. -/
def tradeGroups (df : List Record) : List (List Record) := groupRuns (sortTrades df)

/-- `produce_trades` (server.py lines 17-34), restricted to the sequence
of tick groups it pushes onto the queue: `groupby("timestamp")` of the
dataframe, each group serialized into a `(timestamp, messages, count)`
tuple, in key-ascending order. -/
def produce_trades (df : List Record) : List TickGroup :=
  (tradeGroups df).map toTickGroup

/-- Timestamp of the first row of a run (well defined on the nonempty
runs `groupRuns` yields). -/
def headTS (g : List Record) : Int := (g.headD default).timestamp

-- ### Grouping lemmas

theorem addRec_flatten (r : Record) (G : List (List Record)) :
    (addRec r G).flatten = r :: G.flatten := by
  match G with
  | [] => rfl
  | g :: gs =>
    match g with
    | [] => rfl
    | s :: g' =>
      simp only [addRec]
      split <;> simp

theorem groupRuns_flatten (l : List Record) : (groupRuns l).flatten = l := by
  induction l with
  | nil => rfl
  | cons r rs ih =>
    show (addRec r (groupRuns rs)).flatten = r :: rs
    rw [addRec_flatten, ih]

/-- Every group produced by `addRec` keeps the invariant that all rows of
one group carry the same timestamp. -/
theorem addRec_uniform (r : Record) (G : List (List Record))
    (hG : ∀ g ∈ G, ∀ a ∈ g, ∀ b ∈ g, a.timestamp = b.timestamp) :
    ∀ g ∈ addRec r G, ∀ a ∈ g, ∀ b ∈ g, a.timestamp = b.timestamp := by
  match G with
  | [] =>
    intro g hg a ha b hb
    simp only [addRec, List.mem_singleton] at hg
    subst hg
    simp only [List.mem_singleton] at ha hb
    rw [ha, hb]
  | g₀ :: gs =>
    match g₀ with
    | [] =>
      intro g hg a ha b hb
      simp only [addRec, List.mem_cons] at hg
      rcases hg with hg | hg
      · subst hg
        simp only [List.mem_singleton] at ha hb
        rw [ha, hb]
      · exact hG _ (List.mem_cons_of_mem _ hg) a ha b hb
    | s :: g' =>
      intro g hg a ha b hb
      simp only [addRec] at hg
      split at hg
      case isTrue hts =>
        simp only [List.mem_cons] at hg
        rcases hg with hg | hg
        · subst hg
          have hmem : ∀ x ∈ r :: s :: g', x.timestamp = s.timestamp := by
            intro x hx
            rcases List.mem_cons.mp hx with hx | hx
            · rw [hx]; exact hts
            · exact hG (s :: g') (List.mem_cons_self _ _) x hx s (List.mem_cons_self _ _)
          rw [hmem a ha, hmem b hb]
        · exact hG _ (List.mem_cons_of_mem _ hg) a ha b hb
      case isFalse =>
        simp only [List.mem_cons] at hg
        rcases hg with hg | hg | hg
        · subst hg
          simp only [List.mem_singleton] at ha hb
          rw [ha, hb]
        · subst hg
          exact hG _ (List.mem_cons_self _ _) a ha b hb
        · exact hG _ (List.mem_cons_of_mem _ hg) a ha b hb

theorem groupRuns_uniform (l : List Record) :
    ∀ g ∈ groupRuns l, ∀ a ∈ g, ∀ b ∈ g, a.timestamp = b.timestamp := by
  induction l with
  | nil => intro g hg; simp [groupRuns] at hg
  | cons r rs ih => exact addRec_uniform r (groupRuns rs) ih

/-- `addRec` always yields a first group headed by the row just added. -/
theorem addRec_shape (r : Record) (G : List (List Record)) :
    ∃ g' gs', addRec r G = (r :: g') :: gs' := by
  match G with
  | [] => exact ⟨[], [], rfl⟩
  | g :: gs =>
    match g with
    | [] => exact ⟨[], gs, rfl⟩
    | s :: g' =>
      simp only [addRec]
      split
      · exact ⟨s :: g', gs, rfl⟩
      · exact ⟨[], (s :: g') :: gs, rfl⟩

theorem groupRuns_cons_shape (x : Record) (xs : List Record) :
    ∃ g' gs', groupRuns (x :: xs) = (x :: g') :: gs' :=
  addRec_shape x (groupRuns xs)

/-- On a timestamp-sorted row list, the runs produced by `groupRuns`
have strictly increasing head timestamps. -/
theorem groupRuns_heads_chain (l : List Record) (hs : l.Pairwise tsLE) :
    ((groupRuns l).map headTS).Chain' (· < ·) := by
  induction l with
  | nil => simp [groupRuns]
  | cons r rs ih =>
    have hsr := List.pairwise_cons.mp hs
    match rs with
    | [] => simp [groupRuns, addRec]
    | x :: xs =>
      obtain ⟨g', gs', hshape⟩ := groupRuns_cons_shape x xs
      have ih' := ih hsr.2
      rw [hshape] at ih'
      show ((addRec r (groupRuns (x :: xs))).map headTS).Chain' (· < ·)
      rw [hshape]
      have hrx : r.timestamp ≤ x.timestamp := hsr.1 x (List.mem_cons_self _ _)
      by_cases hts : r.timestamp = x.timestamp
      · simp only [addRec, if_pos hts, List.map_cons]
        rw [List.chain'_cons']
        simp only [List.map_cons] at ih'
        rw [List.chain'_cons'] at ih'
        refine ⟨?_, ih'.2⟩
        intro y hy
        have := ih'.1 y hy
        simpa [headTS, hts] using this
      · simp only [addRec, if_neg hts, List.map_cons]
        rw [List.chain'_cons']
        refine ⟨?_, by simpa [List.map_cons] using ih'⟩
        intro y hy
        simp only [List.map_cons, List.head?_cons, Option.mem_def, Option.some.injEq] at hy
        subst hy
        exact lt_of_le_of_ne hrx (by simpa [headTS] using hts)

-- ### C3: grouping correctness of the producer

/-- **C3** — For every input record set, the producer's tick groups have
counts summing to the total record count; the serialized records of all
groups together are a permutation of the serialized input (no loss, no
duplication, every record in exactly one group); the underlying record
groups are a partition of the input up to permutation; all rows of one
group share exactly the same timestamp; and the emitted group timestamps
are strictly increasing (hence non-decreasing). -/
theorem producer_grouping_correct (df : List Record) :
    ((produce_trades df).map TickGroup.count).sum = df.length ∧
    (((produce_trades df).map TickGroup.messages).flatten).Perm (df.map serialize) ∧
    ((tradeGroups df).flatten).Perm df ∧
    (∀ g ∈ tradeGroups df, ∀ a ∈ g, ∀ b ∈ g, a.timestamp = b.timestamp) ∧
    ((produce_trades df).map TickGroup.timestamp).Chain' (· < ·) := by
  have hperm : (sortTrades df).Perm df := List.perm_insertionSort tsLE df
  have hflat : (tradeGroups df).flatten = sortTrades df := groupRuns_flatten (sortTrades df)
  refine ⟨?_, ?_, ?_, ?_, ?_⟩
  · have h1 : (produce_trades df).map TickGroup.count = (tradeGroups df).map List.length := by
      simp [produce_trades, toTickGroup, Function.comp]
    rw [h1, ← List.length_flatten, hflat, hperm.length_eq]
  · have h1 : (produce_trades df).map TickGroup.messages
        = (tradeGroups df).map (List.map serialize) := by
      simp [produce_trades, toTickGroup, Function.comp]
    rw [h1, ← List.map_flatten, hflat]
    exact hperm.map serialize
  · rw [hflat]; exact hperm
  · exact groupRuns_uniform (sortTrades df)
  · have h1 : (produce_trades df).map TickGroup.timestamp = (tradeGroups df).map headTS := by
      simp [produce_trades, toTickGroup, headTS, Function.comp]
    rw [h1]
    exact groupRuns_heads_chain (sortTrades df) (List.sorted_insertionSort tsLE df)

-- ### Pacer/Sender loop body (server.py lines 78-105)

/-- The quantities the pacer loop body computes for one tick group after
the first: target send time, delay, whether it slept, the recorded
latency, and whether the send was logged as a lag warning. -/
structure PacerObs where
  target : Int
  delay : Int
  slept : Bool
  latency : Int
  lagged : Bool
deriving Repr, DecidableEq

/-- One iteration of the pacer loop (server.py lines 83-105) for a group
with timestamp `ts`, given the session's `replayStart` and `firstTs` and
the two clock readings of the iteration: `tBefore` (`current_time`,
line 88, read before the conditional sleep) and `tAfter`
(`actual_send_time`, line 93, read after the conditional sleep).
Computes `target_send_time = replay_start_time + (ts - first_timestamp)`
(lines 85-86), `delay = target_send_time - current_time` (line 89),
sleeps exactly when `delay > 0` (lines 90-91), records
`latency = actual_send_time - target_send_time` (line 94), and logs a
lag warning exactly when `delay < 0` (lines 98-105). -/
def pacerStep (replayStart firstTs ts tBefore tAfter : Int) : PacerObs :=
  let target := replayStart + (ts - firstTs)
  let delay := target - tBefore
  { target := target
    delay := delay
    slept := decide (0 < delay)
    latency := tAfter - target
    lagged := decide (delay < 0) }

/-- **C1** — For every tick group after the first, the pacer computes
`target_send_time = replay_start_time + (group.timestamp - first_timestamp)`,
sleeps if and only if `delay = target_send_time - now()` is strictly
positive, records `latency = now-after-any-sleep - target_send_time`,
and when `delay > 0` the recorded latency is nonnegative. The hypothesis
is the sleep contract of the event loop: a sleep of `delay` starting at
clock reading `tBefore` returns no earlier than `tBefore + delay`, i.e.
no earlier than the target send time. -/
theorem pacer_timing (replayStart firstTs ts tBefore tAfter : Int)
    (hsleep : 0 < replayStart + (ts - firstTs) - tBefore →
      replayStart + (ts - firstTs) ≤ tAfter) :
    (pacerStep replayStart firstTs ts tBefore tAfter).target
        = replayStart + (ts - firstTs) ∧
    ((pacerStep replayStart firstTs ts tBefore tAfter).slept = true ↔
      0 < (pacerStep replayStart firstTs ts tBefore tAfter).target - tBefore) ∧
    (pacerStep replayStart firstTs ts tBefore tAfter).latency
        = tAfter - (pacerStep replayStart firstTs ts tBefore tAfter).target ∧
    (0 < (pacerStep replayStart firstTs ts tBefore tAfter).delay →
      0 ≤ (pacerStep replayStart firstTs ts tBefore tAfter).latency) := by
  refine ⟨rfl, by simp [pacerStep], rfl, ?_⟩
  intro hpos
  simp only [pacerStep] at hpos ⊢
  omega

/-- Witness for C1: a session with `replay_start_time = 100`,
`first_timestamp = 5`, a group at timestamp `7`, the clock at `101`
before the sleep and at `102` after it: the target is `102`, the pacer
sleeps (delay `1 > 0`) and the recorded latency is `0 ≥ 0`. -/
theorem pacer_timing_witness :
    (pacerStep 100 5 7 101 102).target = 102 ∧
    ((pacerStep 100 5 7 101 102).slept = true ↔
      0 < (pacerStep 100 5 7 101 102).target - 101) ∧
    (pacerStep 100 5 7 101 102).latency = 102 - (pacerStep 100 5 7 101 102).target ∧
    (0 < (pacerStep 100 5 7 101 102).delay →
      0 ≤ (pacerStep 100 5 7 101 102).latency) :=
  pacer_timing 100 5 7 101 102 (by decide)

-- ### C4: lag-warning classification

/-- C4 as stated is false on the code: with `replay_start_time = 100`,
`first_timestamp = 0`, a group at timestamp `0` and the clock at `100`,
the computed delay is exactly `0`, yet the iteration is not classified
as a lag warning (server.py line 98 tests `delay < 0`, so a zero delay
falls into the info-level "wait for 0.0000 sec" branch). -/
theorem lag_warning_cex :
    (pacerStep 100 0 0 100 100).delay = 0 ∧
    (pacerStep 100 0 0 100 100).lagged = false := by
  decide

/-- **C4 (amended)** — For every group after the first, the pacer
surfaces a lag warning exactly when the computed delay is strictly
negative; a delay of exactly zero is logged as a normal info-level wait. -/
theorem lag_warning_iff (replayStart firstTs ts tBefore tAfter : Int) :
    (pacerStep replayStart firstTs ts tBefore tAfter).lagged = true
      ↔ (pacerStep replayStart firstTs ts tBefore tAfter).delay < 0 := by
  simp [pacerStep]

-- ### C2: the producer enqueues exactly one end-of-stream marker

/-- An item of the paced queue (`TradeQueue`, server.py line 14): either
a tick-group tuple or the `None` end-of-stream sentinel. -/
inductive QItem where
  | group (g : TickGroup)
  | marker
deriving Repr, DecidableEq

/-- Is this queue item the `None` end-of-stream sentinel? -/
def QItem.isMarker : QItem → Bool
  | marker => true
  | group _ => false

/-- The sequence of items `produce_trades` puts on the queue during one
run (server.py lines 17-34), as a function of a cancellation oracle:
`cancelAt = none` means the task runs to completion; `cancelAt = some k`
means `CancelledError` is delivered at the producer's `k`-th blocking
`queue.put` if the loop is still running then (so the first `k` groups
were already enqueued), and is a no-op if the task had already finished
all its groups (`groups.length ≤ k`). In every case the `try/except
CancelledError/finally` structure enqueues the `None` sentinel exactly
once, last, before returning. -/
def producerEnqueues (groups : List TickGroup) (cancelAt : Option Nat) : List QItem :=
  let sent :=
    match cancelAt with
    | none => groups
    | some k => if k < groups.length then groups.take k else groups
  sent.map QItem.group ++ [QItem.marker]

theorem countP_isMarker_map_group (l : List TickGroup) :
    (l.map QItem.group).countP QItem.isMarker = 0 := by
  induction l with
  | nil => rfl
  | cons g gs ih => simp [List.countP_cons, QItem.isMarker, ih]

theorem countP_marker_helper (l : List TickGroup) :
    ((l.map QItem.group) ++ [QItem.marker]).countP QItem.isMarker = 1 := by
  rw [List.countP_append, countP_isMarker_map_group]
  rfl

theorem getLast_marker_helper (l : List TickGroup) :
    ((l.map QItem.group) ++ [QItem.marker]).getLast? = some QItem.marker := by
  simp

/-- **C2** — Every run of the producer — run to completion, cancelled
partway, or cancelled after it already finished — enqueues exactly one
end-of-stream marker, as the final item; and delivering a cancellation
after the producer has completed leaves the enqueued sequence identical
to the uncancelled run (no second marker). -/
theorem producer_marker (groups : List TickGroup) (cancelAt : Option Nat)
    (k : Nat) (hk : groups.length ≤ k) :
    (producerEnqueues groups cancelAt).countP QItem.isMarker = 1 ∧
    (producerEnqueues groups cancelAt).getLast? = some QItem.marker ∧
    producerEnqueues groups (some k) = producerEnqueues groups none := by
  refine ⟨?_, ?_, ?_⟩
  · match cancelAt with
    | none => exact countP_marker_helper groups
    | some j =>
      simp only [producerEnqueues]
      split
      · exact countP_marker_helper _
      · exact countP_marker_helper _
  · match cancelAt with
    | none => exact getLast_marker_helper groups
    | some j =>
      simp only [producerEnqueues]
      split
      · exact getLast_marker_helper _
      · exact getLast_marker_helper _
  · simp [producerEnqueues, if_neg (Nat.not_lt.mpr hk)]

/-- Witness for C2: a one-group dataset, with the producer run to
completion and a cancellation delivered only afterwards (`k = 1`):
the queue receives the group then exactly one marker, and the late
cancellation changes nothing. -/
theorem producer_marker_witness :
    (producerEnqueues [TickGroup.mk 0 ["a"] 1] none).countP QItem.isMarker = 1 ∧
    (producerEnqueues [TickGroup.mk 0 ["a"] 1] none).getLast? = some QItem.marker ∧
    producerEnqueues [TickGroup.mk 0 ["a"] 1] (some 1)
      = producerEnqueues [TickGroup.mk 0 ["a"] 1] none :=
  producer_marker [TickGroup.mk 0 ["a"] 1] none 1 (by decide)

-- ### C5: sending a group preserves record order

/-- Sending one tick group (server.py lines 72 and 96):
`asyncio.gather(*(websocket.send(m) for m in messages))` transmits one
frame per message of the group. `gather` schedules the `send` coroutines
in argument order and each writes its frame to the connection in turn,
so the model appends the frames to the wire trace `wire` in the order of
`messages`. -/
def sendGroup (wire : List String) (messages : List String) : List String :=
  messages.foldl (fun w m => w ++ [m]) wire

theorem sendGroup_eq_append (wire messages : List String) :
    sendGroup wire messages = wire ++ messages := by
  induction messages generalizing wire with
  | nil => simp [sendGroup]
  | cons m ms ih =>
    show sendGroup (wire ++ [m]) ms = wire ++ m :: ms
    rw [ih (wire ++ [m])]
    simp

/-- **C5** — Sending a tick group appends exactly the group's serialized
records to the wire, in the group's record order: the wire after the
send is the previous wire followed by the group's message list, so the
frames put on the wire for the group equal that ordered list. -/
theorem send_group_order (wire messages : List String) :
    sendGroup wire messages = wire ++ messages ∧
    (sendGroup wire messages).drop wire.length = messages := by
  refine ⟨sendGroup_eq_append wire messages, ?_⟩
  rw [sendGroup_eq_append wire messages, List.drop_left]

-- ### Replay session message trace (server.py lines 37-113)

/-- A frame the connection handler sends to the consumer: a status
object `json.dumps({"status": s})`, one serialized data record, or an
error object `json.dumps({"error": s})`. -/
inductive OutMsg where
  | statusMsg (s : String)
  | dataMsg (s : String)
  | errorMsg (s : String)
deriving Repr, DecidableEq

def OutMsg.isData : OutMsg → Bool
  | dataMsg _ => true
  | _ => false

def OutMsg.isStatus : OutMsg → Bool
  | statusMsg _ => true
  | _ => false

/-- Outcome of `pd.read_parquet(trade_file)` (server.py lines 44-53):
the file is missing, it is unreadable for another reason, or it loads
into a record list. -/
inductive LoadResult where
  | fileNotFound (path : String)
  | readError
  | loaded (records : List Record)

/-- The data frames of a full replay: each group's messages in group
order (first group at lines 72, the rest at line 96). -/
def replayDataMsgs (groups : List TickGroup) : List OutMsg :=
  (groups.map (fun g => g.messages.map OutMsg.dataMsg)).flatten

/-- `replay_trades` (server.py lines 37-113), restricted to the sequence
of frames it sends over the websocket in a run without transport
failure: on a load error, the one error object (lines 48 and 52) and
nothing else; otherwise the "Data loaded. Starting replay." status
(line 61), then every group's records in order, then the
"Replay finished." status (lines 66 and 108). -/
def replay_trades (result : LoadResult) : List OutMsg :=
  match result with
  | .fileNotFound path => [.errorMsg ("File not found: " ++ path)]
  | .readError => [.errorMsg "Could not read trade data."]
  | .loaded records =>
      .statusMsg "Data loaded. Starting replay." ::
        (replayDataMsgs (produce_trades records) ++ [.statusMsg "Replay finished."])

/-- **C6** — For an empty dataset the complete message sequence sent to
the consumer is exactly one "Data loaded. Starting replay." status
followed by exactly one "Replay finished." status, with no data
messages in between or after. -/
theorem empty_dataset_messages :
    replay_trades (.loaded [])
      = [OutMsg.statusMsg "Data loaded. Starting replay.",
         OutMsg.statusMsg "Replay finished."] := by
  rfl

/-- **C8** — When the dataset file is missing or unreadable at
connection time, the handler sends exactly one structured error message
and nothing else to the consumer — in particular no data message and no
status message — and returns normally (ending only that session; the
accept loop of the listening process is untouched). -/
theorem input_error_messages (path : String) :
    replay_trades (.fileNotFound path)
        = [OutMsg.errorMsg ("File not found: " ++ path)] ∧
    replay_trades .readError = [OutMsg.errorMsg "Could not read trade data."] ∧
    (replay_trades (.fileNotFound path)).countP OutMsg.isData = 0 ∧
    (replay_trades (.fileNotFound path)).countP OutMsg.isStatus = 0 ∧
    (replay_trades .readError).countP OutMsg.isData = 0 ∧
    (replay_trades .readError).countP OutMsg.isStatus = 0 := by
  refine ⟨rfl, rfl, ?_, ?_, rfl, rfl⟩ <;>
    simp [replay_trades, List.countP_cons, OutMsg.isData, OutMsg.isStatus]

-- ### Consumer client (client.py lines 11-37)

/-- A decoded inbound message, as `json.loads` yields it: a string, a
number, an object (association list of fields), or any other JSON
value. -/
inductive JVal where
  | jstr (s : String)
  | jnum (n : Int)
  | jobj (fields : List (String × JVal))
  | jother

/-- `isinstance(data, dict) and "status" in data` (client.py line 22). -/
def hasStatusKey : JVal → Bool
  | .jobj fields => (fields.lookup "status").isSome
  | _ => false

/-- `data["status"] == "Replay finished."` guarded by the status check
(client.py lines 22-24): the loop's break condition. -/
def statusIsFinished : JVal → Bool
  | .jobj fields =>
    match fields.lookup "status" with
    | some (.jstr s) => s == "Replay finished."
    | _ => false
  | _ => false

/-- One log line of the client loop body. -/
inductive LogEvent where
  | statusEvent (v : JVal)
  | tradeDetail (v : JVal)
  | tradeSummary (n : Nat)

/-- The body of the client read loop for one decoded message
(client.py lines 21-30), given the value of `message_count` *after* the
increment at line 20: returns the log line emitted (if any) and whether
the loop breaks. A message with a `status` key is logged as a server
status and breaks the loop exactly when the status equals
"Replay finished."; any other message is treated as a trade — logged in
detail while `message_count <= show_first_n`, as a running summary when
`message_count % summary_interval == 0`, silently counted otherwise. -/
def clientStep (showFirstN summaryInterval : Nat) (count : Nat) (data : JVal) :
    Option LogEvent × Bool :=
  if hasStatusKey data then
    (some (.statusEvent data), statusIsFinished data)
  else if count ≤ showFirstN then
    (some (.tradeDetail data), false)
  else if count % summaryInterval == 0 then
    (some (.tradeSummary count), false)
  else
    (none, false)

/-- `listen_to_trades` (client.py lines 11-37), restricted to its
counting and logging behaviour over a list of decoded inbound messages:
threads `message_count` through `clientStep`, stops after the first
message whose status equals "Replay finished." (or at the end of the
stream), and returns the final `message_count` — the value reported as
"Total trades received" (line 37) — with the log lines emitted. -/
def listen_to_trades (showFirstN summaryInterval : Nat) :
    Nat → List JVal → Nat × List LogEvent
  | count, [] => (count, [])
  | count, m :: rest =>
    let c := count + 1
    let step := clientStep showFirstN summaryInterval c m
    if step.2 then (c, step.1.toList)
    else
      let next := listen_to_trades showFirstN summaryInterval c rest
      (next.1, step.1.toList ++ next.2)

/-- The messages the read loop consumes before returning: the whole
stream, or its prefix up to and including the first message whose
status equals "Replay finished.". -/
def processedMsgs : List JVal → List JVal
  | [] => []
  | m :: rest => if statusIsFinished m then [m] else m :: processedMsgs rest

theorem clientStep_stop_eq (showFirstN summaryInterval count : Nat) (data : JVal) :
    (clientStep showFirstN summaryInterval count data).2 = statusIsFinished data := by
  by_cases h : hasStatusKey data
  · simp [clientStep, h]
  · have hfin : statusIsFinished data = false := by
      match data with
      | .jstr s => rfl
      | .jnum n => rfl
      | .jother => rfl
      | .jobj fields =>
        simp only [hasStatusKey] at h
        simp only [statusIsFinished]
        match hl : fields.lookup "status" with
        | none => rfl
        | some v => simp [hl] at h
    simp only [clientStep]
    rw [if_neg h, hfin]
    split
    · rfl
    · split
      · rfl
      · rfl

-- ### C7: termination of the client read loop

/-- **C7** — The client's read loop breaks on a decoded message if and
only if that message is an object carrying a `status` key whose value is
exactly the string "Replay finished."; no other status value and no
error message makes the loop stop. -/
theorem client_terminates_iff (showFirstN summaryInterval count : Nat) (m : JVal) :
    (clientStep showFirstN summaryInterval count m).2 = true ↔
      ∃ fields, m = JVal.jobj fields ∧
        fields.lookup "status" = some (JVal.jstr "Replay finished.") := by
  rw [clientStep_stop_eq]
  constructor
  · intro h
    match m with
    | .jstr s => simp [statusIsFinished] at h
    | .jnum n => simp [statusIsFinished] at h
    | .jother => simp [statusIsFinished] at h
    | .jobj fields =>
      refine ⟨fields, rfl, ?_⟩
      simp only [statusIsFinished] at h
      split at h
      case h_1 s heq =>
        simp only [beq_iff_eq] at h
        rw [heq, h]
      case h_2 => simp at h
  · rintro ⟨fields, rfl, hl⟩
    simp [statusIsFinished, hl]

-- ### C9: error messages are not distinguished from trades

/-- C9 as stated is false on the code: the inbound object
`{"error": "File not found: trades_sample.parquet"}` carries an `error`
key and no `status` key, yet the client (here as message number 1 with
the default `show_first_n = 10`) takes the trade branch and logs it
verbatim as "Received trade: ..." — it does not distinguish it from a
data record (client.py checks only for a `status` key, line 22). -/
theorem client_error_as_trade_cex :
    clientStep 10 100 1
        (JVal.jobj [("error", JVal.jstr "File not found: trades_sample.parquet")])
      = (some (LogEvent.tradeDetail
          (JVal.jobj [("error", JVal.jstr "File not found: trades_sample.parquet")])),
         false) := by
  rfl

/-- **C9 (amended)** — An inbound object carrying a top-level `error`
key and no `status` key is *not* distinguished from a data record: the
client never stops on it and, while the message counter is within the
first-N window, logs it verbatim as a received trade. -/
theorem client_error_treated_as_trade (showFirstN summaryInterval count : Nat)
    (v : JVal) (fields : List (String × JVal))
    (h : ((("error", v) :: fields).lookup "status") = none) :
    (clientStep showFirstN summaryInterval count (.jobj (("error", v) :: fields))).2
        = false ∧
    (count ≤ showFirstN →
      (clientStep showFirstN summaryInterval count (.jobj (("error", v) :: fields))).1
        = some (.tradeDetail (.jobj (("error", v) :: fields)))) := by
  have hkey : hasStatusKey (.jobj (("error", v) :: fields)) = false := by
    simp [hasStatusKey, h]
  constructor
  · rw [clientStep_stop_eq]
    simp [statusIsFinished, h]
  · intro hc
    simp [clientStep, hkey, hc]

/-- Witness for C9 (amended): the error object the server sends for an
unreadable dataset, arriving as the client's first message with the
default thresholds, is logged as a received trade and the loop goes on. -/
theorem client_error_treated_as_trade_witness :
    (clientStep 10 100 1
        (JVal.jobj [("error", JVal.jstr "Could not read trade data.")])).2 = false ∧
    (1 ≤ 10 →
      (clientStep 10 100 1
          (JVal.jobj [("error", JVal.jstr "Could not read trade data.")])).1
        = some (LogEvent.tradeDetail
            (JVal.jobj [("error", JVal.jstr "Could not read trade data.")]))) :=
  client_error_treated_as_trade 10 100 1 (JVal.jstr "Could not read trade data.") []
    (by rfl)

-- ### C10: the message counter counts every inbound message

theorem listen_count_eq (showFirstN summaryInterval count : Nat) (msgs : List JVal) :
    (listen_to_trades showFirstN summaryInterval count msgs).1
      = count + (processedMsgs msgs).length := by
  induction msgs generalizing count with
  | nil => simp [listen_to_trades, processedMsgs]
  | cons m rest ih =>
    simp only [listen_to_trades, processedMsgs, clientStep_stop_eq]
    by_cases h : statusIsFinished m
    · rw [if_pos h, if_pos h]
      simp
    · rw [if_neg h, if_neg h]
      simp only [List.length_cons, ih]
      omega

theorem countP_length_split (p : JVal → Bool) (l : List JVal) :
    l.length = l.countP p + l.countP (fun m => !p m) := by
  induction l with
  | nil => rfl
  | cons m rest ih =>
    by_cases h : p m <;> simp [List.countP_cons, h, ih] <;> omega

/-- **C10** — The client's counter counts every inbound message: the
reported "Total trades received" equals the number of messages consumed
by the loop, i.e. the number of status/control messages plus the number
of non-status messages; and because the trade branches test the global
counter, a non-status message is detail-logged exactly when its global
message number (statuses included) is within the first-N window, and
summary-logged exactly when that number is past the window and
divisible by the summary interval. -/
theorem client_count_includes_status (showFirstN summaryInterval : Nat)
    (msgs : List JVal) :
    (listen_to_trades showFirstN summaryInterval 0 msgs).1
        = (processedMsgs msgs).length ∧
    (listen_to_trades showFirstN summaryInterval 0 msgs).1
        = (processedMsgs msgs).countP hasStatusKey
          + (processedMsgs msgs).countP (fun m => !hasStatusKey m) ∧
    (∀ count m, hasStatusKey m = false →
      ((clientStep showFirstN summaryInterval count m).1 = some (.tradeDetail m)
        ↔ count ≤ showFirstN)) ∧
    (∀ count m, hasStatusKey m = false → ¬ count ≤ showFirstN →
      ((clientStep showFirstN summaryInterval count m).1 = some (.tradeSummary count)
        ↔ count % summaryInterval = 0)) := by
  refine ⟨?_, ?_, ?_, ?_⟩
  · simpa using listen_count_eq showFirstN summaryInterval 0 msgs
  · rw [listen_count_eq showFirstN summaryInterval 0 msgs]
    simpa using countP_length_split hasStatusKey (processedMsgs msgs)
  · intro count m hm
    simp only [clientStep, hm, Bool.false_eq_true, if_false]
    by_cases hc : count ≤ showFirstN
    · simp [hc]
    · rw [if_neg hc]
      simp only [hc, iff_false]
      split <;> simp
  · intro count m hm hc
    simp only [clientStep, hm, Bool.false_eq_true, if_false, if_neg hc]
    by_cases hmod : count % summaryInterval = 0
    · simp [hmod]
    · simp [hmod]

end TradeReplayer
